import Mathlib

/-!
Verification of the alignment renderable of this repository
(`src/textual/renderables/align.py`, class `Align`).

The class `Align` holds an inner renderable, a target `Size`, a fill
`Style`, a horizontal alignment mode and a vertical alignment mode.
Its `__rich_console__` method renders the inner renderable to a list of
lines (delegated to the external rich console), feeds them through
`align_lines`, and yields the segments of each aligned line followed by
one line-break segment.  Its `__rich_measure__` method returns
`Measurement(width, width)` where `width` is the width of `self.size`.

`align_lines` itself lives in `_segment_tools`, a module of this
repository whose source is not available here; it is modelled below from
the specification's description of the Alignment Renderable.
-/

namespace TextualAlign

/-- Modelled from the spec: `Size(width, height)` from the geometry module
(not available in the sources), an immutable value type with non-negative
integer components. -/
structure Size where
  width : Nat
  height : Nat
deriving DecidableEq, Repr

/-- Modelled from the spec: the horizontal alignment mode
`AlignHorizontal` from `css.types` (not available in the sources),
one of left, center, right. -/
inductive AlignHorizontal where
  | left
  | center
  | right
deriving DecidableEq, Repr

/-- Modelled from the spec: the vertical alignment mode
`AlignVertical` from `css.types` (not available in the sources),
one of top, middle, bottom. -/
inductive AlignVertical where
  | top
  | middle
  | bottom
deriving DecidableEq, Repr

/-- A rich `Style` (external collaborator), abstracted to an opaque
identifier: the alignment code only threads styles through, never
inspects them. -/
structure Style where
  id : Nat
deriving DecidableEq, Repr

/-- One styled character cell of an output line: a glyph together with
its style.  A rich segment is a run of such cells. -/
structure Cell where
  glyph : Char
  style : Style
deriving DecidableEq, Repr

/-- A rendered line: a sequence of styled cells. -/
abbrev Line := List Cell

/-- A padding cell produced by the fill style: a space carrying the fill
style. -/
def fillCell (style : Style) : Cell :=
  ⟨' ', style⟩

/-- A fully blank line of the given width, filled with the fill style. -/
def blank_line (width : Nat) (style : Style) : Line :=
  List.replicate width (fillCell style)

/-- Modelled from the spec: the per-line horizontal placement performed
by `_segment_tools.align_lines` (module not available in the sources).
A line is padded to exactly `width` cells: center mode distributes the
leftover width with any odd remainder to the right; right mode places
all leftover on the left; left mode places all leftover on the right.
A line wider than `width` is cropped to `width`. -/
def pad_line (line : Line) (width : Nat) (style : Style)
    (horizontal : AlignHorizontal) : Line :=
  if width ≤ line.length then
    line.take width
  else
    let leftover := width - line.length
    match horizontal with
    | .left =>
        line ++ List.replicate leftover (fillCell style)
    | .center =>
        let lpad := leftover / 2
        List.replicate lpad (fillCell style) ++ line ++
          List.replicate (leftover - lpad) (fillCell style)
    | .right =>
        List.replicate leftover (fillCell style) ++ line

/-- Modelled from the spec: `_segment_tools.align_lines` (module not
available in the sources).  Given already-rendered lines, a fill style,
a target size and the two alignment modes, produce exactly `size.height`
lines, each exactly `size.width` wide: each input line is padded/cropped
horizontally, excess lines are cropped, and the leftover rows are filled
with blank lines — middle mode splits them with any odd remainder to the
bottom, bottom mode places them all above, top mode places them all
below. -/
def align_lines (lines : List Line) (style : Style) (size : Size)
    (horizontal : AlignHorizontal) (vertical : AlignVertical) :
    List Line :=
  let width := size.width
  let height := size.height
  let placed := (lines.map (fun l => pad_line l width style horizontal)).take height
  let leftover := height - placed.length
  let top :=
    match vertical with
    | .top => 0
    | .middle => leftover / 2
    | .bottom => leftover
  List.replicate top (blank_line width style) ++ placed ++
    List.replicate (leftover - top) (blank_line width style)

/-- `rich.measure.Measurement` (external collaborator): the minimum and
maximum width answered to a measurement query. -/
structure Measurement where
  minimum : Nat
  maximum : Nat
deriving DecidableEq, Repr

/-- The `Align` class of `src/textual/renderables/align.py`: an inner
renderable (kept abstract, its type is a parameter), a target size, a
fill style and the two alignment modes. -/
structure Align (ρ : Type) where
  renderable : ρ
  size : Size
  style : Style
  horizontal : AlignHorizontal
  vertical : AlignVertical

/-- One item of the segment stream emitted by `Align.__rich_console__`:
either a content cell of an aligned line or a line-break segment
(`Segment.line()`). -/
inductive StreamItem where
  | cell (c : Cell)
  | newline
deriving DecidableEq, Repr

/-- `Align.__rich_console__`: the inner renderable's rendered lines
(produced externally by `console.render_lines(..., pad=False)`) are
passed through `align_lines` with the instance's style, size and modes;
each aligned line is yielded followed by one line-break segment. -/
def rich_console {ρ : Type} (a : Align ρ) (innerLines : List Line) :
    List StreamItem :=
  (align_lines innerLines a.style a.size a.horizontal a.vertical).flatMap
    (fun line => line.map StreamItem.cell ++ [StreamItem.newline])

/-- `Align.__rich_measure__`: unpacks `width` from `self.size` and
returns `Measurement(width, width)`; the console and options arguments
are ignored. -/
def rich_measure {ρ γ δ : Type} (a : Align ρ) (console : γ)
    (options : δ) : Measurement :=
  ⟨a.size.width, a.size.width⟩

/-- Splits a segment stream at its line-break segments: returns the list
of completed lines (each terminated by a line break) and the residue of
trailing cells after the last line break. -/
def split_stream : List StreamItem → List Line × Line
  | [] => ([], [])
  | .newline :: rest =>
      let p := split_stream rest
      ([] :: p.1, p.2)
  | .cell c :: rest =>
      match split_stream rest with
      | ([], residue) => ([], c :: residue)
      | (l :: ls, residue) => ((c :: l) :: ls, residue)

/-! ### Helper lemmas -/

theorem pad_line_length (line : Line) (width : Nat) (style : Style)
    (horizontal : AlignHorizontal) :
    (pad_line line width style horizontal).length = width := by
  unfold pad_line
  by_cases hw : width ≤ line.length
  · simp [hw]
  · simp only [hw, if_false]
    cases horizontal <;> simp <;> omega

theorem align_lines_length (lines : List Line) (style : Style)
    (size : Size) (horizontal : AlignHorizontal)
    (vertical : AlignVertical) :
    (align_lines lines style size horizontal vertical).length =
      size.height := by
  unfold align_lines
  have hp : ((lines.map (fun l => pad_line l size.width style horizontal)).take
      size.height).length ≤ size.height := by
    simp
  cases vertical <;> simp <;> omega

theorem align_lines_width (lines : List Line) (style : Style)
    (size : Size) (horizontal : AlignHorizontal)
    (vertical : AlignVertical) (line : Line)
    (hmem : line ∈ align_lines lines style size horizontal vertical) :
    line.length = size.width := by
  unfold align_lines at hmem
  simp only [List.mem_append] at hmem
  rcases hmem with (h | h) | h
  · have := List.eq_of_mem_replicate h
    subst this
    simp [blank_line]
  · have h' := List.mem_of_mem_take h
    rcases List.mem_map.mp h' with ⟨l, _, rfl⟩
    exact pad_line_length l size.width style horizontal
  · have := List.eq_of_mem_replicate h
    subst this
    simp [blank_line]

theorem pad_line_of_length_eq (line : Line) (width : Nat) (style : Style)
    (horizontal : AlignHorizontal) (hl : line.length = width) :
    pad_line line width style horizontal = line := by
  unfold pad_line
  rw [if_pos (le_of_eq hl.symm), ← hl, List.take_length]

theorem align_lines_of_exact_shape (ls : List Line) (style : Style)
    (size : Size) (horizontal : AlignHorizontal)
    (vertical : AlignVertical) (hlen : ls.length = size.height)
    (hw : ∀ l ∈ ls, l.length = size.width) :
    align_lines ls style size horizontal vertical = ls := by
  have hmap : ls.map (fun l => pad_line l size.width style horizontal) = ls := by
    rw [List.map_congr_left
      (fun l hl => pad_line_of_length_eq l size.width style horizontal (hw l hl))]
    simp
  cases vertical <;>
    simp [align_lines, hmap, List.take_of_length_le (le_of_eq hlen), hlen]

theorem split_stream_line (line : Line) (rest : List StreamItem) :
    split_stream (line.map StreamItem.cell ++ StreamItem.newline :: rest) =
      (line :: (split_stream rest).1, (split_stream rest).2) := by
  induction line with
  | nil => simp [split_stream]
  | cons c cs ih => simp [split_stream, ih]

theorem split_stream_flat (ls : List Line) :
    split_stream (ls.flatMap
        (fun line => line.map StreamItem.cell ++ [StreamItem.newline])) =
      (ls, []) := by
  induction ls with
  | nil => rfl
  | cons l rest ih =>
    rw [List.flatMap_cons, List.append_assoc, List.singleton_append,
      split_stream_line, ih]

theorem flat_stream_getLast (ls : List Line) (hne : ls ≠ []) :
    (ls.flatMap
        (fun line => line.map StreamItem.cell ++ [StreamItem.newline])).getLast? =
      some StreamItem.newline := by
  induction ls with
  | nil => exact absurd rfl hne
  | cons l rest ih =>
    cases rest with
    | nil =>
      simp only [List.flatMap_cons, List.flatMap_nil, List.append_nil]
      rw [List.getLast?_append_of_ne_nil _ (by simp)]
      rfl
    | cons l2 rest2 =>
      rw [List.flatMap_cons,
        List.getLast?_append_of_ne_nil _ (by simp [List.flatMap_cons])]
      exact ih (by simp)

/-! ### Claim theorems -/

/-- C1: for every target size (width w ≥ 0, height h ≥ 0), inner
rendered lines, fill style, horizontal mode and vertical mode, the
Alignment Renderable's output consists of exactly h lines, each exactly
w cells wide. -/
theorem align_output_exact_shape (innerLines : List Line) (style : Style)
    (size : Size) (horizontal : AlignHorizontal)
    (vertical : AlignVertical) :
    (align_lines innerLines style size horizontal vertical).length =
      size.height ∧
    ∀ line ∈ align_lines innerLines style size horizontal vertical,
      line.length = size.width :=
  ⟨align_lines_length innerLines style size horizontal vertical,
   fun line hmem =>
     align_lines_width innerLines style size horizontal vertical line hmem⟩

/-- C2: for every `Align` instance, the measurement query returns
`size.width` as both the minimum and the maximum width, regardless of
the inner renderable, the console and the options. -/
theorem rich_measure_fixed_width {ρ γ δ : Type} (a : Align ρ)
    (console : γ) (options : δ) :
    (rich_measure a console options).minimum = a.size.width ∧
    (rich_measure a console options).maximum = a.size.width :=
  ⟨rfl, rfl⟩

/-- C3: horizontal placement per line — center mode splits the leftover
width with any odd remainder placed on the right, right mode places all
leftover on the left, left mode places all leftover on the right; in
particular a line of width 3 centered in target width 6 gets 1 cell of
left padding and 2 cells of right padding. -/
theorem horizontal_placement (line : Line) (width : Nat) (style : Style)
    (hle : line.length ≤ width) :
    (∃ lpad rpad,
        pad_line line width style .center =
          List.replicate lpad (fillCell style) ++ line ++
            List.replicate rpad (fillCell style) ∧
        lpad + rpad = width - line.length ∧ lpad ≤ rpad ∧
        rpad ≤ lpad + 1) ∧
    pad_line line width style .right =
      List.replicate (width - line.length) (fillCell style) ++ line ∧
    pad_line line width style .left =
      line ++ List.replicate (width - line.length) (fillCell style) ∧
    pad_line (List.replicate 3 (⟨'X', ⟨0⟩⟩ : Cell)) 6 ⟨1⟩ .center =
      List.replicate 1 (fillCell ⟨1⟩) ++
        List.replicate 3 (⟨'X', ⟨0⟩⟩ : Cell) ++
        List.replicate 2 (fillCell ⟨1⟩) := by
  refine ⟨?_, ?_, ?_, ?_⟩
  · by_cases hw : width ≤ line.length
    · have heq : line.length = width := le_antisymm hle hw
      exact ⟨0, 0, by simp [pad_line_of_length_eq line width style .center heq],
        by omega, Nat.le_refl 0, by omega⟩
    · refine ⟨(width - line.length) / 2,
        (width - line.length) - (width - line.length) / 2, ?_, by omega,
        by omega, by omega⟩
      simp [pad_line, hw]
  · by_cases hw : width ≤ line.length
    · have heq : line.length = width := le_antisymm hle hw
      simp [pad_line_of_length_eq line width style .right heq, heq]
    · simp [pad_line, hw]
  · by_cases hw : width ≤ line.length
    · have heq : line.length = width := le_antisymm hle hw
      simp [pad_line_of_length_eq line width style .left heq, heq]
    · simp [pad_line, hw]
  · decide

/-- C3 witness: a concrete line of width 3 right-aligned in target
width 6 receives all 3 leftover cells on the left. -/
theorem horizontal_placement_witness :
    (List.replicate 3 (⟨'X', ⟨0⟩⟩ : Cell)).length ≤ 6 ∧
    pad_line (List.replicate 3 (⟨'X', ⟨0⟩⟩ : Cell)) 6 ⟨1⟩ .right =
      List.replicate (6 - (List.replicate 3 (⟨'X', ⟨0⟩⟩ : Cell)).length)
          (fillCell ⟨1⟩) ++
        List.replicate 3 (⟨'X', ⟨0⟩⟩ : Cell) :=
  ⟨by decide,
   (horizontal_placement (List.replicate 3 ⟨'X', ⟨0⟩⟩) 6 ⟨1⟩
       (by decide)).2.1⟩

/-- C4: vertical placement — middle mode splits the leftover rows with
any odd remainder placed at the bottom, bottom mode places all leftover
rows above the content, top mode places them all below; in particular an
inner content of height 1 aligned bottom in target height 4 appears on
the last output line. -/
theorem vertical_placement (lines : List Line) (style : Style)
    (size : Size) (horizontal : AlignHorizontal)
    (hle : lines.length ≤ size.height) :
    (∃ t b,
        align_lines lines style size horizontal .middle =
          List.replicate t (blank_line size.width style) ++
            lines.map (fun l => pad_line l size.width style horizontal) ++
            List.replicate b (blank_line size.width style) ∧
        t + b = size.height - lines.length ∧ t ≤ b ∧ b ≤ t + 1) ∧
    align_lines lines style size horizontal .bottom =
      List.replicate (size.height - lines.length)
          (blank_line size.width style) ++
        lines.map (fun l => pad_line l size.width style horizontal) ∧
    align_lines lines style size horizontal .top =
      lines.map (fun l => pad_line l size.width style horizontal) ++
        List.replicate (size.height - lines.length)
          (blank_line size.width style) ∧
    (align_lines [[(⟨'X', ⟨0⟩⟩ : Cell)]] ⟨1⟩ ⟨1, 4⟩
        .left .bottom).getLast? = some [(⟨'X', ⟨0⟩⟩ : Cell)] := by
  have htake :
      (lines.map (fun l => pad_line l size.width style horizontal)).take
          size.height =
        lines.map (fun l => pad_line l size.width style horizontal) :=
    List.take_of_length_le (by simpa using hle)
  refine ⟨?_, ?_, ?_, ?_⟩
  · refine ⟨(size.height - lines.length) / 2,
      (size.height - lines.length) - (size.height - lines.length) / 2,
      ?_, by omega, by omega, by omega⟩
    simp only [align_lines, htake, List.length_map]
  · simp only [align_lines, htake, List.length_map]
    simp
  · simp only [align_lines, htake, List.length_map]
    simp
  · decide

/-- C4 witness: one concrete inner line aligned bottom in target height
3 is preceded by 2 blank rows. -/
theorem vertical_placement_witness :
    ([[(⟨'A', ⟨0⟩⟩ : Cell)]] : List Line).length ≤ 3 ∧
    align_lines [[(⟨'A', ⟨0⟩⟩ : Cell)]] ⟨1⟩ ⟨2, 3⟩ .left .bottom =
      List.replicate 2 (blank_line 2 ⟨1⟩) ++
        ([[(⟨'A', ⟨0⟩⟩ : Cell)]] : List Line).map
          (fun l => pad_line l 2 ⟨1⟩ .left) :=
  ⟨by decide,
   (vertical_placement [[⟨'A', ⟨0⟩⟩]] ⟨1⟩ ⟨2, 3⟩ .left (by decide)).2.1⟩

/-- C5: concrete scenario — inner lines `["X"]`, size `(3,3)`,
horizontal center, vertical middle, space fill: the output is exactly
the three lines `["   ", " X ", "   "]`. -/
theorem scenario_center_middle :
    align_lines [[(⟨'X', ⟨0⟩⟩ : Cell)]] ⟨1⟩ ⟨3, 3⟩ .center .middle =
      [List.replicate 3 (fillCell ⟨1⟩),
       [fillCell ⟨1⟩, ⟨'X', ⟨0⟩⟩, fillCell ⟨1⟩],
       List.replicate 3 (fillCell ⟨1⟩)] ∧
    (align_lines [[(⟨'X', ⟨0⟩⟩ : Cell)]] ⟨1⟩ ⟨3, 3⟩ .center .middle).map
        (fun line => String.mk (line.map Cell.glyph)) =
      ["   ", " X ", "   "] := by
  constructor
  · rfl
  · rfl

/-- C6: centering is idempotent — applying the Alignment Renderable with
horizontal center and vertical middle to output that is already centered
at the same target size returns that output unchanged. -/
theorem center_idempotent (lines : List Line) (style : Style)
    (size : Size) :
    align_lines (align_lines lines style size .center .middle) style size
        .center .middle =
      align_lines lines style size .center .middle :=
  align_lines_of_exact_shape _ style size .center .middle
    (align_lines_length lines style size .center .middle)
    (fun l hl => align_lines_width lines style size .center .middle l hl)

/-- C7: if the inner content exceeds the target size in either dimension
(a line wider than `size.width`, or more lines than `size.height`), the
excess is cropped so the output still fits exactly within the target
size, rather than erroring or overflowing. -/
theorem crop_excess (lines : List Line) (style : Style) (size : Size)
    (horizontal : AlignHorizontal) (vertical : AlignVertical)
    (hlines : size.height ≤ lines.length) (line : Line)
    (hwide : size.width ≤ line.length) :
    align_lines lines style size horizontal vertical =
      (lines.map (fun l => pad_line l size.width style horizontal)).take
        size.height ∧
    pad_line line size.width style horizontal = line.take size.width ∧
    (align_lines lines style size horizontal vertical).length =
      size.height := by
  refine ⟨?_, ?_, align_lines_length lines style size horizontal vertical⟩
  · have hlen :
        ((lines.map (fun l => pad_line l size.width style horizontal)).take
            size.height).length = size.height := by
      simp
      omega
    cases vertical <;> simp [align_lines, hlen]
  · unfold pad_line
    rw [if_pos hwide]

/-- C7 witness: two inner lines cropped to target height 1, and a
3-cell line cropped to target width 2. -/
theorem crop_excess_witness :
    (Size.mk 2 1).height ≤
      ([[(⟨'a', ⟨0⟩⟩ : Cell)], [(⟨'b', ⟨0⟩⟩ : Cell)]] : List Line).length ∧
    (Size.mk 2 1).width ≤ (List.replicate 3 (⟨'c', ⟨0⟩⟩ : Cell)).length ∧
    pad_line (List.replicate 3 (⟨'c', ⟨0⟩⟩ : Cell)) 2 ⟨1⟩ .center =
      (List.replicate 3 (⟨'c', ⟨0⟩⟩ : Cell)).take 2 :=
  ⟨by decide, by decide,
   (crop_excess [[⟨'a', ⟨0⟩⟩], [⟨'b', ⟨0⟩⟩]] ⟨1⟩ ⟨2, 1⟩ .center .middle
       (by decide) (List.replicate 3 ⟨'c', ⟨0⟩⟩) (by decide)).2.1⟩

/-- C8: the Alignment Renderable is total with no failure modes; the
empty-input case produces a block of `size.height` lines of `size.width`
cells filled entirely with the fill style. -/
theorem empty_input_filled_block (style : Style) (size : Size)
    (horizontal : AlignHorizontal) (vertical : AlignVertical) :
    align_lines [] style size horizontal vertical =
      List.replicate size.height
        (List.replicate size.width (fillCell style)) := by
  unfold align_lines
  cases vertical <;>
    simp [blank_line, ← List.replicate_add] <;>
    (congr 1; omega)

/-- C9: the result of the measurement query is a function of `size`
alone — two Align instances with equal size produce equal Measurements,
regardless of renderable, style, modes, console or options. -/
theorem measure_depends_only_on_size {ρ₁ ρ₂ γ₁ γ₂ δ₁ δ₂ : Type}
    (a : Align ρ₁) (b : Align ρ₂) (c₁ : γ₁) (c₂ : γ₂) (o₁ : δ₁)
    (o₂ : δ₂) (hsize : a.size = b.size) :
    rich_measure a c₁ o₁ = rich_measure b c₂ o₂ := by
  simp [rich_measure, hsize]

/-- C9 witness: two concrete Align instances of equal size but different
renderables, styles, modes, consoles and options measure equally. -/
theorem measure_depends_only_on_size_witness :
    (Align.mk (0 : Nat) ⟨4, 2⟩ ⟨0⟩ .left .top).size =
      (Align.mk "txt" ⟨4, 2⟩ ⟨7⟩ .center .bottom).size ∧
    rich_measure (Align.mk (0 : Nat) ⟨4, 2⟩ ⟨0⟩ .left .top) true (0 : Nat) =
      rich_measure (Align.mk "txt" ⟨4, 2⟩ ⟨7⟩ .center .bottom) (5 : Nat)
        false :=
  ⟨rfl, measure_depends_only_on_size _ _ _ _ _ _ rfl⟩

/-- C10 (amended): every aligned line — including the final one — is
followed by exactly one line-break segment (splitting the stream at line
breaks recovers exactly the aligned lines with no trailing residue), and
whenever the target height is positive the emitted stream ends with a
line break. -/
theorem stream_lines_terminated {ρ : Type} (a : Align ρ)
    (innerLines : List Line) :
    split_stream (rich_console a innerLines) =
      (align_lines innerLines a.style a.size a.horizontal a.vertical,
        []) ∧
    (0 < a.size.height →
      (rich_console a innerLines).getLast? = some StreamItem.newline) := by
  constructor
  · exact split_stream_flat _
  · intro hpos
    apply flat_stream_getLast
    intro hnil
    have := align_lines_length innerLines a.style a.size a.horizontal
      a.vertical
    rw [hnil] at this
    simp at this
    omega

/-- C10 witness: a concrete render at height 2 ends with a line-break
segment. -/
theorem stream_lines_terminated_witness :
    0 < (Size.mk 2 2).height ∧
    (rich_console (Align.mk () ⟨2, 2⟩ ⟨0⟩ .left .top)
        [[(⟨'A', ⟨0⟩⟩ : Cell)]]).getLast? = some StreamItem.newline :=
  ⟨by decide,
   (stream_lines_terminated (Align.mk () ⟨2, 2⟩ ⟨0⟩ .left .top)
       [[(⟨'A', ⟨0⟩⟩ : Cell)]]).2 (by decide)⟩

/-- C10 counterexample: with target height 0 the emitted stream is empty
and therefore does not end with a line-break segment, refuting the claim
that the stream always ends with a line break. -/
theorem stream_no_trailing_break_at_zero_height :
    rich_console (Align.mk () ⟨3, 0⟩ ⟨0⟩ .center .middle)
        [[(⟨'X', ⟨0⟩⟩ : Cell)]] = [] ∧
    (rich_console (Align.mk () ⟨3, 0⟩ ⟨0⟩ .center .middle)
        [[(⟨'X', ⟨0⟩⟩ : Cell)]]).getLast? ≠ some StreamItem.newline := by
  constructor
  · rfl
  · intro h
    simp [rich_console, align_lines] at h

end TextualAlign
